import Mathlib

/-!
# Verification of the dalec-mapping core

Shallow embedding of the Dockerfile instruction model builder
(`parser/parser.go`) and the Dalec transformation engine
(`transformer/transformer.go`), together with theorems settling the
specification claims about them.

Go `map[string]T` values are modelled as association lists written with a
replace-or-append insertion (`alsert`); Go `nil`-able pointers are modelled
with `Option`; a run that would dereference a nil pointer is modelled as
`none` (the Go program panics there).
-/

set_option autoImplicit false

namespace DalecMapping

/-- Insert into an association list, replacing the binding of an existing key
in place and appending a fresh key at the end (the functional rendering of a
Go map write `m[k] = v`). -/
def alsert {β : Type} (k : String) (v : β) : List (String × β) → List (String × β)
  | [] => [(k, v)]
  | (k2, v2) :: rest => if k2 = k then (k, v) :: rest else (k2, v2) :: alsert k v rest

theorem lookup_alsert {β : Type} (k : String) (v : β) :
    ∀ (m : List (String × β)), List.lookup k (alsert k v m) = some v := by
  intro m
  induction m with
  | nil => simp [alsert, List.lookup]
  | cons hd tl ih =>
    obtain ⟨k2, v2⟩ := hd
    by_cases h : k2 = k
    · simp [alsert, h, List.lookup]
    · simp only [alsert, if_neg h, List.lookup]
      have : (k == k2) = false := by
        simp [BEq.beq]
        exact fun hh => h hh.symm
      simp [this, ih]

theorem alsert_nil {β : Type} (k : String) (v : β) :
    alsert k v ([] : List (String × β)) = [(k, v)] := rfl

theorem alsert_cons_ne {β : Type} (k k2 : String) (v v2 : β) (m : List (String × β))
    (h : ¬ k2 = k) : alsert k v ((k2, v2) :: m) = (k2, v2) :: alsert k v m := by
  simp [alsert, h]

theorem lookup_alsert_ne {β : Type} (k k' : String) (v : β) (m : List (String × β))
    (h : ¬ k' = k) : List.lookup k' (alsert k v m) = List.lookup k' m := by
  induction m with
  | nil =>
    have hb : (k' == k) = false := by
      simp only [beq_eq_false_iff_ne, ne_eq]
      exact h
    simp [alsert, List.lookup, hb]
  | cons hd tl ih =>
    obtain ⟨k2, v2⟩ := hd
    by_cases h2 : k2 = k
    · subst h2
      have hb : (k' == k2) = false := by
        simp only [beq_eq_false_iff_ne, ne_eq]
        exact h
      simp [alsert, List.lookup, hb]
    · simp only [alsert, if_neg h2, List.lookup]
      cases hb : (k' == k2) with
      | true => simp [hb]
      | false => simp [hb, ih]

/-- `strings.Contains(s, sub)`: `sub` occurs as a substring of `s`. -/
def containsSubstr (s sub : String) : Bool :=
  decide (List.IsInfix sub.toList s.toList)

/-- `strings.ToUpper` (character-wise upper-casing, as used on ASCII
instruction names). -/
def toUpperStr (s : String) : String := String.mk (s.toList.map Char.toUpper)

/-- `strings.ToLower` (character-wise lower-casing). -/
def toLowerStr (s : String) : String := String.mk (s.toList.map Char.toLower)

/-- `strings.HasPrefix(s, pre)`. -/
def startsWithStr (s pre : String) : Bool := pre.toList.isPrefixOf s.toList

/-- `strings.HasSuffix(s, post)`. -/
def endsWithStr (s post : String) : Bool := post.toList.isSuffixOf s.toList

/-- Drop the first `n` characters of `s` (`strings.TrimPrefix` once the prefix
is known to be present). -/
def dropStr (s : String) (n : Nat) : String := String.mk (s.toList.drop n)

/-- `strings.TrimSuffix(s, suffix)`. -/
def trimSuffixStr (s suffix : String) : String :=
  if endsWithStr s suffix then String.mk (s.toList.take (s.toList.length - suffix.toList.length))
  else s

/-- `strings.Split` on a one-character separator (given on the character
list). -/
def splitOnChar (sep : Char) : List Char → List (List Char)
  | [] => [[]]
  | c :: rest =>
    match splitOnChar sep rest with
    | [] => [[]]
    | g :: gs => if c = sep then [] :: g :: gs else (c :: g) :: gs

/-- `strings.Trim(s, "\"")`: strip all leading and trailing quote characters. -/
def trimQuotes (s : String) : String :=
  String.mk (((s.toList.dropWhile (· = '"')).reverse.dropWhile (· = '"')).reverse)

/-- `filepath.Base` (Unix): empty path gives ".", all-separator path gives "/",
otherwise the last path element after stripping trailing slashes. -/
def filepathBase (path : String) : String :=
  if path = "" then "."
  else
    let cs := path.toList.reverse.dropWhile (· = '/')
    if cs = [] then "/"
    else String.mk ((cs.takeWhile (· ≠ '/')).reverse)

/-- `filepath.Join(a, b)` restricted to the already-clean, slash-normalized
arguments this code base passes it: empty elements are skipped and the rest
are concatenated with a single slash (the general Go function additionally
lexically cleans the result, which is the identity on such inputs). -/
def filepathJoin (a b : String) : String :=
  if a = "" then b else if b = "" then a else a ++ "/" ++ b

namespace parser

/-- One pre-parsed buildkit instruction node: `node.Value` (instruction name),
`node.Flags`, the flattened `node.Next` argument chain, and the
`node.Attributes["json"]` marker. -/
structure Node where
  Value : String
  Flags : List String
  Args : List String
  jsonAttr : Bool
deriving DecidableEq, Repr

/-- `CopyInstruction` of parser.go (the Go field `Type` is spelled `Type'`). -/
structure CopyInstruction where
  Type' : String
  From : String
  Source : List String
  Dest : String
deriving DecidableEq, Repr

/-- `Stage` of parser.go. -/
structure Stage where
  Name : String
  From : String
  Platform : String
  Args : List (String × String)
  Env : List (String × String)
  Workdir : String
  Runs : List String
  Copies : List CopyInstruction
  Entrypoint : List String
  Cmd : List String
  Expose : List String
deriving DecidableEq, Repr

/-- `DockerfileInfo` of parser.go. -/
structure DockerfileInfo where
  Stages : List Stage
  Args : List (String × String)
  Labels : List (String × String)
deriving DecidableEq, Repr

/-- `reconstructCommand`: join the argument chain with single spaces. -/
def reconstructCommand (args : List String) : String :=
  String.intercalate " " args

/-- `parseKeyValue`: split the joined arguments on the first `=`, falling back
to the first space, else an empty value. -/
def parseKeyValue (args : List String) : String × String :=
  let fullValue := reconstructCommand args
  if containsSubstr fullValue "=" then
    match splitOnChar '=' fullValue.toList with
    | [] => (fullValue, "")
    | x :: rest => (String.mk x, String.intercalate "=" (rest.map String.mk))
  else
    match splitOnChar ' ' fullValue.toList with
    | [] => (fullValue, "")
    | [_] => (fullValue, "")
    | x :: rest => (String.mk x, String.intercalate " " (rest.map String.mk))

/-- `parseCommandArray`: JSON-form arguments are taken literally; a non-empty
shell-form command is wrapped as `/bin/sh -c <cmd>`; an empty one yields nil. -/
def parseCommandArray (node : Node) : List String :=
  if node.jsonAttr then node.Args
  else
    let cmd := reconstructCommand node.Args
    if cmd ≠ "" then ["/bin/sh", "-c", cmd] else []

/-- `parseFromInstruction`: `--platform=` flag, base ref, optional `AS name`. -/
def parseFromInstruction (node : Node) : Stage :=
  let platform := node.Flags.foldl
    (fun acc flag =>
      if startsWithStr flag "--platform=" then dropStr flag "--platform=".toList.length else acc) ""
  let (base, name) :=
    match node.Args with
    | [] => ("", "")
    | b :: rest =>
      (b, match rest with
          | a :: nm :: _ => if toUpperStr a = "AS" then nm else ""
          | _ => "")
  { Name := name, From := base, Platform := platform, Args := [], Env := [],
    Workdir := "", Runs := [], Copies := [], Entrypoint := [], Cmd := [], Expose := [] }

/-- `parseCopyInstruction`: `--from=` flag; the last positional argument is the
destination, the preceding ones the sources; with no positional arguments the
destination is left empty. -/
def parseCopyInstruction (node : Node) (instType : String) : CopyInstruction :=
  let fromStage := node.Flags.foldl
    (fun acc flag =>
      if startsWithStr flag "--from=" then dropStr flag "--from=".toList.length else acc) ""
  match node.Args.getLast? with
  | some d => { Type' := instType, From := fromStage, Source := node.Args.dropLast, Dest := d }
  | none => { Type' := instType, From := fromStage, Source := [], Dest := "" }

/-- Apply `f` to the last stage of the list (the "current" stage); the list is
unchanged when no stage is open. -/
def modifyLast (f : Stage → Stage) : List Stage → List Stage
  | [] => []
  | [s] => [f s]
  | s :: rest => s :: modifyLast f rest

/-- One iteration of the `ParseDockerfile` AST walk: dispatch on the
uppercased instruction name; unrecognized instructions are ignored. A current
stage exists exactly when at least one `FROM` has been seen, i.e. when
`Stages` is non-empty, and it is the last stage of the list. -/
def step (info : DockerfileInfo) (node : Node) : DockerfileInfo :=
  let instruction := toUpperStr node.Value
  if instruction = "FROM" then
    { info with Stages := info.Stages ++ [parseFromInstruction node] }
  else if instruction = "ARG" then
    let kv := parseKeyValue node.Args
    { info with
      Args := alsert kv.1 kv.2 info.Args,
      Stages := modifyLast (fun st => { st with Args := alsert kv.1 kv.2 st.Args }) info.Stages }
  else if instruction = "ENV" then
    let kv := parseKeyValue node.Args
    { info with Stages := modifyLast (fun st => { st with Env := alsert kv.1 kv.2 st.Env }) info.Stages }
  else if instruction = "WORKDIR" then
    match node.Args with
    | a :: _ => { info with Stages := modifyLast (fun st => { st with Workdir := a }) info.Stages }
    | [] => info
  else if instruction = "RUN" then
    let f := fun st : Stage => { st with Runs := st.Runs ++ [reconstructCommand node.Args] }
    { info with Stages := modifyLast f info.Stages }
  else if instruction = "COPY" ∨ instruction = "ADD" then
    let f := fun st : Stage => { st with Copies := st.Copies ++ [parseCopyInstruction node instruction] }
    { info with Stages := modifyLast f info.Stages }
  else if instruction = "ENTRYPOINT" then
    { info with Stages := modifyLast (fun st => { st with Entrypoint := parseCommandArray node }) info.Stages }
  else if instruction = "CMD" then
    { info with Stages := modifyLast (fun st => { st with Cmd := parseCommandArray node }) info.Stages }
  else if instruction = "EXPOSE" then
    match node.Args with
    | a :: _ => { info with Stages := modifyLast (fun st => { st with Expose := st.Expose ++ [a] }) info.Stages }
    | [] => info
  else if instruction = "LABEL" then
    let kv := parseKeyValue node.Args
    { info with Labels := alsert kv.1 (trimQuotes kv.2) info.Labels }
  else info

/-- The instruction-model-building loop of `ParseDockerfile` (the file opening
and the buildkit tokenizer in front of it are out-of-scope collaborators). -/
def ParseDockerfile (nodes : List Node) : DockerfileInfo :=
  nodes.foldl step { Stages := [], Args := [], Labels := [] }

end parser

namespace transformer

open parser

/-- A dynamic document value of the open-schema output specification
(`map[string]interface{}` holding strings, slices and nested maps). -/
inductive JVal where
  | str : String → JVal
  | arr : List JVal → JVal
  | obj : List (String × JVal) → JVal

/-- `DalecSpec`: the produced specification document. -/
abbrev DalecSpec := List (String × JVal)

/-- `RepoMetadata` of transformer.go; the nilable pointer is `Option RepoMetadata`. -/
structure RepoMetadata where
  GitURL : String
  Commit : String
  Website : String
  Description : String
  License : String
  RepoName : String
deriving DecidableEq, Repr

/-- `PreviousDalecSpec`: the commit and revision recorded by a previous run. -/
structure PreviousDalecSpec where
  Commit : String
  Revision : String
deriving DecidableEq, Repr

/-- `strconv.Atoi`: an optional sign followed by at least one decimal digit,
rejecting anything else; values outside the signed 64-bit range are an error. -/
def atoi (s : String) : Option Int :=
  let p : Bool × List Char :=
    match s.toList with
    | '-' :: rest => (true, rest)
    | '+' :: rest => (false, rest)
    | cs => (false, cs)
  let digits := p.2
  if digits = [] then none
  else if ¬ digits.all Char.isDigit then none
  else
    let n : Nat := digits.foldl (fun acc c => acc * 10 + (c.toNat - 48)) 0
    let v : Int := if p.1 then -(n : Int) else (n : Int)
    if v < -(2 ^ 63) ∨ (2 ^ 63 - 1 : Int) < v then none else some v

/-- Two's-complement wraparound to a signed 64-bit value: Go's `int` addition
overflows by wrapping, so `prevRevision + 1` wraps at the int64 maximum. -/
def wrap64 (n : Int) : Int := (n + 2 ^ 63) % 2 ^ 64 - 2 ^ 63

/-- The outcome of one `rebuild` call: the Go return value, the final value of
the by-value `previousSpec` parameter (whose `Revision` field the function may
bump locally), and whether the invalid-revision warning was printed. -/
structure RebuildResult where
  changed : Bool
  previousSpec : PreviousDalecSpec
  warned : Bool
deriving DecidableEq, Repr

/-- `rebuild` of transformer.go. `none` models the nil-pointer dereference the
Go code performs on `repoInfo.Commit` when `repoInfo` is nil and a previous
commit is recorded; the increment `prevRevision + 1` is Go 64-bit `int`
addition, which wraps on overflow. -/
def rebuild (repoInfo : Option RepoMetadata) (previousSpec : PreviousDalecSpec) :
    Option RebuildResult :=
  if previousSpec.Commit = "" then some ⟨false, previousSpec, false⟩
  else
    match repoInfo with
    | none => none
    | some info =>
      if previousSpec.Commit = info.Commit then
        match atoi previousSpec.Revision with
        | none => some ⟨false, previousSpec, true⟩
        | some prevRevision =>
          some ⟨false,
            { previousSpec with Revision := toString (wrap64 (prevRevision + 1)) }, false⟩
      else some ⟨true, previousSpec, false⟩

/-- `getArgValueOrDefault`: a declared, non-empty global ARG wins over the
supplied default (all call sites pass and expect strings). -/
def getArgValueOrDefault (info : Option DockerfileInfo) (key : String) (defaultValue : String) :
    String :=
  match info with
  | none => defaultValue
  | some i =>
    match List.lookup key i.Args with
    | some val => if val ≠ "" then val else defaultValue
    | none => defaultValue

/-- `populateArgs` of transformer.go. -/
def populateArgs (repoMeta : Option RepoMetadata) (dockerInfo : Option DockerfileInfo) :
    List (String × JVal) :=
  match dockerInfo with
  | none =>
    [("REVISION", .str "1"), ("VERSION", .str "0.1"), ("COMMIT", .str ""),
     ("TARGETARCH", .str ""), ("TARGETOS", .str "")]
  | some info =>
    let commitValue : String :=
      match repoMeta with
      | some r => if r.Commit ≠ "" then r.Commit else ""
      | none => ""
    let args := alsert "REVISION" (JVal.str (getArgValueOrDefault (some info) "REVISION" "1")) []
    let args := alsert "VERSION" (JVal.str (getArgValueOrDefault (some info) "VERSION" "0.1")) args
    let args := alsert "COMMIT" (JVal.str (getArgValueOrDefault (some info) "COMMIT" commitValue)) args
    let args := alsert "TARGETARCH" (JVal.str (getArgValueOrDefault (some info) "TARGETARCH" "")) args
    alsert "TARGETOS" (JVal.str (getArgValueOrDefault (some info) "TARGETOS" "")) args

/-- `populateMetadata` of transformer.go: writes the fixed metadata keys into
the spec, taking license/website/description from the metadata when non-empty. -/
def populateMetadata (spec : DalecSpec) (repoMeta : Option RepoMetadata) : DalecSpec :=
  let spec := alsert "packager" (JVal.str "Azure Container Upstream") spec
  let spec := alsert "vendor" (JVal.str "Microsoft Corporation") spec
  let license : String :=
    match repoMeta with
    | some r => if r.License ≠ "" then r.License else ""
    | none => ""
  let spec := alsert "license" (JVal.str license) spec
  let website : String :=
    match repoMeta with
    | some r => if r.Website ≠ "" then r.Website else ""
    | none => ""
  let spec := alsert "website" (JVal.str website) spec
  let description : String :=
    match repoMeta with
    | some r => if r.Description ≠ "" then r.Description else ""
    | none => ""
  let spec := alsert "description" (JVal.str description) spec
  let spec := alsert "version" (JVal.str "${VERSION}") spec
  alsert "revision" (JVal.str "${REVISION}") spec

/-- `isBuilderStage`: the case-folded stage name is "builder" or contains
"build". -/
def isBuilderStage (stage : Stage) : Bool :=
  let name := toLowerStr stage.Name
  name = "builder" || containsSubstr name "build"

/-- `hasGoModules`: some RUN command contains "go build" or "go mod". -/
def hasGoModules (stage : Stage) : Bool :=
  stage.Runs.any (fun run => containsSubstr run "go build" || containsSubstr run "go mod")

/-- `deriveSourceName`: base name of the stage workdir when meaningful. -/
def deriveSourceName (stage : Stage) : String :=
  if stage.Workdir ≠ "" then
    let name := filepathBase stage.Workdir
    if name ≠ "" ∧ name ≠ "/" ∧ name ≠ "." then name else "source"
  else "source"

/-- `findBuilderStageName`: name of the first named builder stage, else the
literal "builder". -/
def findBuilderStageName (info : DockerfileInfo) : String :=
  match info.Stages.find? (fun st => isBuilderStage st && st.Name ≠ "") with
  | some st => st.Name
  | none => "builder"

/-- `derivePackageName` of transformer.go. -/
def derivePackageName (info : Option DockerfileInfo) : String :=
  match info with
  | none => "package"
  | some i =>
    if i.Stages = [] then "package"
    else
      match i.Stages.reverse.find? (fun st =>
          st.Name ≠ "" && st.Name ≠ "builder" && st.Name ≠ "build" &&
          st.Name ≠ "linux" && st.Name ≠ "windows") with
      | some st => toLowerStr st.Name
      | none =>
        let fromCopies := i.Stages.reverse.findSome? (fun st =>
          st.Copies.findSome? (fun c =>
            if c.From = "builder" then
              c.Source.findSome? (fun src =>
                if containsSubstr src "/bin/" then
                  let name := trimSuffixStr (filepathBase src) ".exe"
                  if name ≠ "" then some (toLowerStr name) else none
                else none)
            else none))
        match fromCopies with
        | some n => n
        | none => "package"

/-- `buildExtensions` of transformer.go. -/
def buildExtensions (packageName : String) : List (String × JVal) :=
  let ext := alsert "image-name" (JVal.str (toLowerStr packageName)) []
  let ext := alsert "repository" (JVal.str "azure") ext
  let ext := alsert "build-targets"
    (JVal.arr [.str "azlinux3/rpm", .str "azlinux3/container", .str "windowscross/container"]) ext
  let perTarget := alsert "windowscross"
    (JVal.obj [("platforms", JVal.arr [.str "windows/amd64"])]) []
  alsert "per-target" (JVal.obj perTarget) ext

/-- `extractSources` of transformer.go: one entry for the first builder stage,
else a single fallback entry. -/
def extractSources (info : DockerfileInfo) (repoMeta : Option RepoMetadata) :
    List (String × JVal) :=
  let sourceName : String :=
    match repoMeta with
    | some r => if r.RepoName ≠ "" then r.RepoName else "source"
    | none => "source"
  let gitURL : String :=
    match repoMeta with
    | some r => if r.GitURL ≠ "" then r.GitURL else ""
    | none => ""
  let git := alsert "commit" (JVal.str "${COMMIT}") (alsert "url" (JVal.str gitURL) [])
  match info.Stages.find? isBuilderStage with
  | some stage =>
    let sourceName := if sourceName = "source" then deriveSourceName stage else sourceName
    let source := alsert "git" (JVal.obj git) []
    let source :=
      if hasGoModules stage then
        alsert "generate" (JVal.arr [JVal.obj [("gomod", JVal.obj [])]]) source
      else source
    alsert sourceName (JVal.obj source) []
  | none =>
    alsert sourceName (JVal.obj (alsert "git" (JVal.obj git) [])) []

/-- `extractDependencies` of transformer.go. -/
def extractDependencies (info : DockerfileInfo) : List (String × JVal) :=
  let buildDeps := info.Stages.foldl (fun buildDeps stage =>
    if hasGoModules stage || stage.From = "go" || containsSubstr stage.From "golang" then
      alsert "msft-golang" (JVal.obj []) buildDeps
    else buildDeps) []
  if buildDeps.isEmpty then [] else alsert "build" (JVal.obj buildDeps) []

/-- `extractTargets` of transformer.go. -/
def extractTargets (info : DockerfileInfo) : List (String × JVal) :=
  let hasGo := info.Stages.any hasGoModules
  if hasGo then
    let runtimeDeps := alsert "SymCrypt-OpenSSL" (JVal.obj [])
      (alsert "SymCrypt" (JVal.obj []) (alsert "openssl-libs" (JVal.obj []) []))
    let azlinux3 := alsert "dependencies"
      (JVal.obj (alsert "runtime" (JVal.obj runtimeDeps) [])) []
    alsert "azlinux3" (JVal.obj azlinux3) []
  else []

/-- `extractBuildCommands` of transformer.go: per builder stage, the
non-package-manager RUN commands newline-joined, with a `cd` line prepended
when the stage declared a workdir and no command contains "cd ". -/
def extractBuildCommands (info : DockerfileInfo) : List JVal :=
  info.Stages.foldl (fun steps stage =>
    if isBuilderStage stage then
      if stage.Runs ≠ [] then
        let commands := stage.Runs.filter (fun run =>
          !containsSubstr run "apt-get" && !containsSubstr run "yum install" &&
          !containsSubstr run "tdnf install")
        if commands ≠ [] then
          let cmd := String.intercalate "\n" commands
          let cmd :=
            if stage.Workdir ≠ "" ∧ ¬ (containsSubstr cmd "cd " = true) then
              "cd " ++ stage.Workdir ++ "\n" ++ cmd
            else cmd
          steps ++ [JVal.obj [("command", JVal.str cmd)]]
        else steps
      else steps
    else steps) []

/-- `extractBuildSteps` of transformer.go. -/
def extractBuildSteps (info : DockerfileInfo) : List (String × JVal) :=
  let env : List (String × String) := alsert "VERSION" "${VERSION}" []
  let env := info.Stages.foldl (fun env stage =>
    if isBuilderStage stage then
      let env := stage.Env.foldl (fun env kv =>
        if kv.1 ≠ "OS" ∧ kv.1 ≠ "ARCH" ∧ kv.1 ≠ "VERSION" then alsert kv.1 kv.2 env
        else env) env
      if hasGoModules stage then
        alsert "CGO_ENABLED" "1" (alsert "GOEXPERIMENT" "systemcrypto" (alsert "GOPROXY" "direct" env))
      else env
    else env) env
  let build : List (String × JVal) :=
    if env ≠ [] then
      alsert "env" (JVal.obj (env.map (fun kv => (kv.1, JVal.str kv.2)))) []
    else []
  let steps := extractBuildCommands info
  if steps.isEmpty then build else alsert "steps" (JVal.arr steps) build

/-- `extractArtifacts` of transformer.go: binary-looking sources of
builder-sourced copies in non-builder stages, scanned in reverse order. -/
def extractArtifacts (info : DockerfileInfo) : List (String × JVal) :=
  let builderName := findBuilderStageName info
  let binaries := info.Stages.reverse.foldl (fun binaries stage =>
    if isBuilderStage stage then binaries
    else
      stage.Copies.foldl (fun binaries copy =>
        if copy.From = builderName ∨ copy.From = "builder" then
          copy.Source.foldl (fun binaries src =>
            if containsSubstr src "/bin/" || endsWithStr src ".exe" then
              alsert src (JVal.obj []) binaries
            else binaries) binaries
        else binaries) binaries) []
  if binaries.isEmpty then [] else alsert "binaries" (JVal.obj binaries) []

/-- `createSymlinks` of transformer.go. -/
def createSymlinks (stage : Stage) : List (String × JVal) :=
  let symlinks := stage.Copies.foldl (fun symlinks copy =>
    if copy.From = "builder" || containsSubstr copy.From "build" then
      copy.Source.foldl (fun symlinks src =>
        if containsSubstr src "/bin/" && containsSubstr copy.Dest "/usr/local/bin/" then
          let binaryName := filepathBase src
          let destPath := filepathJoin copy.Dest binaryName
          let destPath := if ¬ endsWithStr copy.Dest binaryName then copy.Dest else destPath
          alsert ("/usr/bin/" ++ binaryName) (JVal.obj [("path", JVal.str destPath)]) symlinks
        else symlinks) symlinks
    else symlinks) []
  if symlinks.isEmpty then [] else alsert "symlinks" (JVal.obj symlinks) []

/-- The final-stage candidate test of `extractImageConfig`: not a
platform-suffix name and with an entrypoint or some copy instruction. -/
def finalStagePred (stage : Stage) : Bool :=
  stage.Name ≠ "windows" && stage.Name ≠ "hpc" &&
    (stage.Entrypoint ≠ [] || stage.Copies ≠ [])

/-- `extractImageConfig` of transformer.go: the reverse-indexed loop picking
the final-stage candidate is rendered as `find?` on the reversed stage list. -/
def extractImageConfig (info : DockerfileInfo) : List (String × JVal) :=
  if info.Stages = [] then []
  else
    match info.Stages.reverse.find? finalStagePred with
    | none => []
    | some finalStage =>
      let image : List (String × JVal) :=
        match finalStage.Entrypoint with
        | [] => []
        | e0 :: rest =>
          let entrypoint := if 2 < rest.length + 1 ∧ e0 = "/bin/sh" then rest.getD 1 "" else e0
          alsert "entrypoint" (JVal.str entrypoint) []
      let post := createSymlinks finalStage
      if post.isEmpty then image else alsert "post" (JVal.obj post) image

/-- `TransformToDalec` of transformer.go; `none` models the nil-pointer panic
propagated out of `rebuild`. -/
def TransformToDalec (repoInfo : Option RepoMetadata) (previousSpec : PreviousDalecSpec)
    (dockerInfo : Option DockerfileInfo) : Option DalecSpec :=
  match rebuild repoInfo previousSpec with
  | none => none
  | some _ =>
    let spec : DalecSpec := alsert "# syntax" (JVal.str "ghcr.io/azure/dalec/frontend:latest") []
    let spec := alsert "args" (JVal.obj (populateArgs repoInfo dockerInfo)) spec
    let packageName :=
      match repoInfo with
      | some r => if r.RepoName ≠ "" then toLowerStr r.RepoName else derivePackageName dockerInfo
      | none => derivePackageName dockerInfo
    let spec := alsert "name" (JVal.str packageName) spec
    let spec := populateMetadata spec repoInfo
    let spec := alsert "x-build-extensions" (JVal.obj (buildExtensions packageName)) spec
    let spec :=
      match dockerInfo with
      | some di =>
        let spec := alsert "sources" (JVal.obj (extractSources di repoInfo)) spec
        let spec := alsert "dependencies" (JVal.obj (extractDependencies di)) spec
        let spec := alsert "targets" (JVal.obj (extractTargets di)) spec
        let spec := alsert "build" (JVal.obj (extractBuildSteps di)) spec
        let spec := alsert "artifacts" (JVal.obj (extractArtifacts di)) spec
        alsert "image" (JVal.obj (extractImageConfig di)) spec
      | none => spec
    some (alsert "tests" (JVal.arr []) spec)

/-- `Set` of transformer.go on the already-split dot-path segments: descend
through the leading keys, (re)creating nested maps as needed, and write the
value at the last key. -/
def Set : List (String × JVal) → List String → JVal → List (String × JVal)
  | spec, [], _ => spec
  | spec, [k], v => alsert k v spec
  | spec, k :: k2 :: ks, v =>
    let sub : List (String × JVal) :=
      match List.lookup k spec with
      | some (JVal.obj m) => m
      | _ => []
    alsert k (JVal.obj (Set sub (k2 :: ks) v)) spec

/-- `Get` of transformer.go on the already-split dot-path segments: descend
through nested maps, failing on a missing key or a non-map intermediate. -/
def Get : JVal → List String → Except String JVal
  | v, [] => .ok v
  | JVal.obj m, k :: ks =>
    match List.lookup k m with
    | some v2 => Get v2 ks
    | none => .error ("key not found: " ++ k)
  | _, k :: _ => .error ("not a map at key: " ++ k)

end transformer

/-! ## Shared helper lemmas -/

theorem modifyLast_ne_nil (f : parser.Stage → parser.Stage) (b : parser.Stage)
    (bs : List parser.Stage) : parser.modifyLast f (b :: bs) ≠ [] := by
  cases bs <;> simp [parser.modifyLast]

theorem getLast?_modifyLast (f : parser.Stage → parser.Stage) :
    ∀ l : List parser.Stage, (parser.modifyLast f l).getLast? = Option.map f l.getLast? := by
  intro l
  induction l with
  | nil => rfl
  | cons s rest ih =>
    cases rest with
    | nil => rfl
    | cons b bs =>
      have h1 : parser.modifyLast f (s :: b :: bs) = s :: parser.modifyLast f (b :: bs) := by
        simp [parser.modifyLast]
      rw [h1]
      rcases hm : parser.modifyLast f (b :: bs) with _ | ⟨m, ms⟩
      · exact absurd hm (modifyLast_ne_nil f b bs)
      · rw [hm] at ih
        rw [List.getLast?_cons_cons, ih, List.getLast?_cons_cons]

/-! ## Claim theorems -/

namespace transformer

open parser

theorem atoi_range (s : String) (n : Int) (h : atoi s = some n) :
    -(2 ^ 63) ≤ n ∧ n ≤ 2 ^ 63 - 1 := by
  simp only [atoi] at h
  split at h
  · exact absurd h (by simp)
  · split at h
    · exact absurd h (by simp)
    · split at h <;> split at h <;>
        first
        | exact Option.noConfusion h
        | (rename_i hcond
           injection h with h2
           subst h2
           push_neg at hcond
           exact hcond)

theorem wrap64_eq_self (m : Int) (h1 : -(2 ^ 63) ≤ m) (h2 : m ≤ 2 ^ 63 - 1) :
    wrap64 m = m := by
  unfold wrap64
  have h3 : 0 ≤ m + 2 ^ 63 := by linarith
  have h4 : m + 2 ^ 63 < 2 ^ 64 := by
    have h5 : (2 : Int) ^ 64 = 2 ^ 63 + 2 ^ 63 := by norm_num
    linarith
  rw [Int.emod_eq_of_lt h3 h4]
  ring

/-- C2 fails as stated at the int64 maximum: Go's `prevRevision + 1` is 64-bit
addition and wraps, so previous revision "9223372036854775807" does not yield
its integer plus one but -9223372036854775808. -/
theorem C2_wraparound_counterexample :
    rebuild (some ⟨"", "abc", "", "", "", ""⟩) ⟨"abc", "9223372036854775807"⟩ =
      some ⟨false, ⟨"abc", "-9223372036854775808"⟩, false⟩ ∧
    ("-9223372036854775808" : String) ≠ "9223372036854775808" := by
  exact ⟨by decide, by decide⟩

/-- C2 (amended): for a previous specification with a non-empty recorded
commit, the revision reconciler computes the next revision as the parsed
previous revision plus one under 64-bit two's-complement wraparound when the
commits match — equal to the integer plus one whenever the previous revision
is below the int64 maximum ("3" yields 4) — warns and applies no increment
when the parse fails, and applies no increment when the commits differ. -/
theorem C2_revision_reconciliation (r : RepoMetadata) (prev : PreviousDalecSpec)
    (hne : prev.Commit ≠ "") :
    (prev.Commit = r.Commit →
      (∀ n, atoi prev.Revision = some n →
        rebuild (some r) prev =
          some ⟨false, { prev with Revision := toString (wrap64 (n + 1)) }, false⟩) ∧
      (∀ n, atoi prev.Revision = some n → n < 2 ^ 63 - 1 →
        rebuild (some r) prev =
          some ⟨false, { prev with Revision := toString (n + 1) }, false⟩) ∧
      (atoi prev.Revision = none →
        rebuild (some r) prev = some ⟨false, prev, true⟩)) ∧
    (prev.Commit ≠ r.Commit →
      rebuild (some r) prev = some ⟨true, prev, false⟩) := by
  have hA : prev.Commit = r.Commit → ∀ n, atoi prev.Revision = some n →
      rebuild (some r) prev =
        some ⟨false, { prev with Revision := toString (wrap64 (n + 1)) }, false⟩ := by
    intro heq n hn
    unfold rebuild
    rw [if_neg hne]
    dsimp only
    rw [if_pos heq, hn]
  constructor
  · intro heq
    refine ⟨hA heq, ?_, ?_⟩
    · intro n hn hlt
      have hr := atoi_range prev.Revision n hn
      rw [hA heq n hn, wrap64_eq_self (n + 1) (by linarith [hr.1]) (by linarith)]
    · intro hn
      unfold rebuild
      rw [if_neg hne]
      dsimp only
      rw [if_pos heq, hn]
  · intro hneq
    unfold rebuild
    rw [if_neg hne]
    dsimp only
    rw [if_neg hneq]

theorem C2_revision_reconciliation_witness :
    rebuild (some ⟨"", "abc", "", "", "", ""⟩) ⟨"abc", "3"⟩ =
      some ⟨false, ⟨"abc", "4"⟩, false⟩ := by
  have h := C2_revision_reconciliation ⟨"", "abc", "", "", "", ""⟩ ⟨"abc", "3"⟩ (by decide)
  rw [(h.1 rfl).2.1 3 (by decide) (by decide)]
  decide

/-- C9: the code faults on absent (nil) repository metadata when the previous
specification records a non-empty commit: `rebuild` dereferences the nil
`repoInfo` pointer, and the fault propagates out of `TransformToDalec`. -/
theorem C9_nil_metadata_fault :
    rebuild none ⟨"abc", "1"⟩ = none ∧
    TransformToDalec none ⟨"abc", "1"⟩ (some ⟨[], [], []⟩) = none := by
  exact ⟨rfl, rfl⟩

/-- C3: the emitted specification does not depend on the previous
specification input: two successful runs with the same metadata and build
model but different previous specifications produce identical documents. -/
theorem C3_output_independent_of_previous (repoInfo : Option RepoMetadata)
    (dockerInfo : Option DockerfileInfo) (prev1 prev2 : PreviousDalecSpec)
    (s1 s2 : DalecSpec)
    (h1 : TransformToDalec repoInfo prev1 dockerInfo = some s1)
    (h2 : TransformToDalec repoInfo prev2 dockerInfo = some s2) : s1 = s2 := by
  unfold TransformToDalec at h1 h2
  cases hr1 : rebuild repoInfo prev1 with
  | none => rw [hr1] at h1; simp at h1
  | some r1 =>
    cases hr2 : rebuild repoInfo prev2 with
    | none => rw [hr2] at h2; simp at h2
    | some r2 =>
      rw [hr1] at h1
      rw [hr2] at h2
      simp only [Option.some.injEq] at h1 h2
      rw [← h1, ← h2]

theorem C3_output_independent_of_previous_witness :
    (TransformToDalec (some ⟨"", "", "", "", "", ""⟩) ⟨"", "1"⟩ none).getD [] =
      (TransformToDalec (some ⟨"", "", "", "", "", ""⟩) ⟨"", "2"⟩ none).getD [] := by
  exact C3_output_independent_of_previous (some ⟨"", "", "", "", "", ""⟩) none
    ⟨"", "1"⟩ ⟨"", "2"⟩ _ _ rfl rfl

theorem set_get_aux (keys : List String) : keys ≠ [] →
    ∀ (spec : List (String × JVal)) (v : JVal),
      Get (JVal.obj (Set spec keys v)) keys = .ok v := by
  induction keys with
  | nil => intro h; exact absurd rfl h
  | cons k ks ih =>
    intro _ spec v
    cases ks with
    | nil => simp [Set, Get, DalecMapping.lookup_alsert]
    | cons k2 ks2 =>
      simp only [Set, Get, DalecMapping.lookup_alsert]
      exact ih (by simp) _ v

/-- C10: setting a dot-path (given by its dot-free segments) with `Set` and
then reading it back with `Get` returns the written value. -/
theorem C10_set_get_roundtrip (spec : List (String × JVal)) (keys : List String) (v : JVal)
    (hne : keys ≠ []) (_hdots : ∀ k ∈ keys, containsSubstr k "." = false) :
    Get (JVal.obj (Set spec keys v)) keys = .ok v :=
  set_get_aux keys hne spec v

theorem C10_set_get_roundtrip_witness :
    Get (JVal.obj (Set [] ["build", "env", "VERSION"] (JVal.str "1.0")))
      ["build", "env", "VERSION"] = .ok (JVal.str "1.0") := by
  exact C10_set_get_roundtrip [] ["build", "env", "VERSION"] (JVal.str "1.0")
    (by decide) (by decide)

/-- C4 fails as stated: a declared, non-empty global `ARG COMMIT` takes
priority over the repository metadata's commit, not the other way around. -/
theorem C4_counterexample :
    List.lookup "COMMIT"
      (populateArgs (some ⟨"", "fromrepo", "", "", "", ""⟩)
        (some ⟨[], [("COMMIT", "fromarg")], []⟩)) = some (JVal.str "fromarg") ∧
    ("fromarg" : String) ≠ "fromrepo" := by
  exact ⟨rfl, by decide⟩

theorem populateArgs_lookup_COMMIT (repoMeta : Option RepoMetadata) (info : DockerfileInfo) :
    List.lookup "COMMIT" (populateArgs repoMeta (some info)) =
      some (JVal.str (getArgValueOrDefault (some info) "COMMIT"
        (match repoMeta with
         | some r => if r.Commit ≠ "" then r.Commit else ""
         | none => ""))) := rfl

/-- C4 (amended): the args-section COMMIT comes first from a declared,
non-empty global arg named COMMIT; only otherwise from the repository
metadata's commit when that is present and non-empty; and it is empty when
neither exists. -/
theorem C4_commit_precedence (repoMeta : Option RepoMetadata) (info : DockerfileInfo) :
    (∀ v, List.lookup "COMMIT" info.Args = some v → v ≠ "" →
       List.lookup "COMMIT" (populateArgs repoMeta (some info)) = some (JVal.str v)) ∧
    ((List.lookup "COMMIT" info.Args = none ∨ List.lookup "COMMIT" info.Args = some "") →
      (∀ r, repoMeta = some r → r.Commit ≠ "" →
         List.lookup "COMMIT" (populateArgs repoMeta (some info)) =
           some (JVal.str r.Commit)) ∧
      ((repoMeta = none ∨ ∃ r, repoMeta = some r ∧ r.Commit = "") →
         List.lookup "COMMIT" (populateArgs repoMeta (some info)) =
           some (JVal.str ""))) := by
  constructor
  · intro v hv hvne
    rw [populateArgs_lookup_COMMIT]
    simp [getArgValueOrDefault, hv, hvne]
  · intro h0
    constructor
    · intro r hr hrne
      subst hr
      rw [populateArgs_lookup_COMMIT]
      rcases h0 with h0 | h0 <;> simp [getArgValueOrDefault, h0, hrne]
    · intro hnone
      rw [populateArgs_lookup_COMMIT]
      rcases hnone with h | ⟨r, hr, hrc⟩
      · subst h
        rcases h0 with h0 | h0 <;> simp [getArgValueOrDefault, h0]
      · subst hr
        rcases h0 with h0 | h0 <;> simp [getArgValueOrDefault, h0, hrc]

theorem C4_commit_precedence_witness :
    List.lookup "COMMIT" (populateArgs none (some ⟨[], [("COMMIT", "x")], []⟩)) =
      some (JVal.str "x") :=
  (C4_commit_precedence none ⟨[], [("COMMIT", "x")], []⟩).1 "x" rfl (by decide)

end transformer

namespace parser

/-- C5 fails as stated: a COPY with zero positional arguments is not skipped;
a CopyInstruction with empty destination is appended to the current stage. -/
theorem C5_counterexample :
    (ParseDockerfile [⟨"FROM", [], ["alpine"], false⟩, ⟨"COPY", [], [], false⟩]).Stages.map
        Stage.Copies =
      [[{ Type' := "COPY", From := "", Source := [], Dest := "" }]] := by
  rfl

/-- C5 (amended): a COPY/ADD instruction with zero positional arguments after
flag stripping is not skipped: a CopyInstruction with an empty destination and
no sources is appended to the current stage's copy list. -/
theorem C5_empty_copy_appended (info : DockerfileInfo) (node : Node)
    (hcopy : DalecMapping.toUpperStr node.Value = "COPY" ∨
      DalecMapping.toUpperStr node.Value = "ADD")
    (hargs : node.Args = []) (st : Stage)
    (hlast : info.Stages.getLast? = some st) :
    (step info node).Stages.getLast? =
      some { st with Copies :=
        st.Copies ++ [parseCopyInstruction node (DalecMapping.toUpperStr node.Value)] } ∧
    (parseCopyInstruction node (DalecMapping.toUpperStr node.Value)).Dest = "" ∧
    (parseCopyInstruction node (DalecMapping.toUpperStr node.Value)).Source = [] := by
  refine ⟨?_, ?_, ?_⟩
  · rcases hcopy with h | h <;>
      simp [step, h, DalecMapping.getLast?_modifyLast, hlast]
  · simp [parseCopyInstruction, hargs]
  · simp [parseCopyInstruction, hargs]

theorem C5_empty_copy_appended_witness :
    (step (ParseDockerfile [⟨"FROM", [], ["alpine"], false⟩]) ⟨"COPY", [], [], false⟩).Stages.getLast? =
      some { Name := "", From := "alpine", Platform := "", Args := [], Env := [],
             Workdir := "", Runs := [],
             Copies := [{ Type' := "COPY", From := "", Source := [], Dest := "" }],
             Entrypoint := [], Cmd := [], Expose := [] } := by
  have h := C5_empty_copy_appended (ParseDockerfile [⟨"FROM", [], ["alpine"], false⟩])
    ⟨"COPY", [], [], false⟩ (Or.inl rfl) rfl
    { Name := "", From := "alpine", Platform := "", Args := [], Env := [], Workdir := "",
      Runs := [], Copies := [], Entrypoint := [], Cmd := [], Expose := [] } rfl
  exact h.1

/-- C7: a later ARG declaration of a key overwrites any earlier value, both in
the global args map and (when a stage is open) in the current stage's args
map; in particular `ARG FOO=1` then `ARG FOO=2` yields global FOO = "2". -/
theorem C7_arg_overwrite (info : DockerfileInfo) (node : Node)
    (harg : DalecMapping.toUpperStr node.Value = "ARG") :
    List.lookup (parseKeyValue node.Args).1 ((step info node).Args) =
      some (parseKeyValue node.Args).2 ∧
    ∀ st, (step info node).Stages.getLast? = some st →
      List.lookup (parseKeyValue node.Args).1 st.Args =
        some (parseKeyValue node.Args).2 := by
  constructor
  · simp [step, harg, DalecMapping.lookup_alsert]
  · intro st hst
    have hst' : (modifyLast
        (fun st => { st with
          Args := alsert (parseKeyValue node.Args).1 (parseKeyValue node.Args).2 st.Args })
        info.Stages).getLast? = some st := by
      rw [← hst]
      simp [step, harg]
    rw [DalecMapping.getLast?_modifyLast] at hst'
    cases hlast : info.Stages.getLast? with
    | none => rw [hlast] at hst'; simp at hst'
    | some st0 =>
      rw [hlast] at hst'
      have h2 := Option.some.inj hst'
      rw [← h2]
      exact DalecMapping.lookup_alsert _ _ _

theorem C7_arg_overwrite_witness :
    List.lookup "FOO"
      ((ParseDockerfile [⟨"ARG", [], ["FOO=1"], false⟩, ⟨"ARG", [], ["FOO=2"], false⟩]).Args) =
      some "2" := by
  have h := C7_arg_overwrite (ParseDockerfile [⟨"ARG", [], ["FOO=1"], false⟩])
    ⟨"ARG", [], ["FOO=2"], false⟩ rfl
  exact h.1

end parser

namespace transformer

open parser

/-- C1 fails as stated: with zero stages the `sources` section is not empty
(the fallback source entry is emitted). -/
theorem C1_counterexample :
    (TransformToDalec none ⟨"", ""⟩ (some ⟨[], [], []⟩)).map (List.lookup "sources") =
      some (some (JVal.obj [("source",
        JVal.obj [("git", JVal.obj [("url", JVal.str ""), ("commit", JVal.str "${COMMIT}")])])])) ∧
    JVal.obj [("source",
      JVal.obj [("git", JVal.obj [("url", JVal.str ""), ("commit", JVal.str "${COMMIT}")])])] ≠
      JVal.obj [] := by
  refine ⟨rfl, by simp⟩

set_option maxHeartbeats 2000000 in
/-- C1 (amended): for a build model with zero stages, the `dependencies`,
`targets`, `artifacts` and `image` sections are empty; `sources` holds exactly
the single fallback entry and `build` holds exactly the VERSION environment
entry; the `args`, `name` and metadata sections are present and well-formed. -/
theorem C1_zero_stage_sections (repoInfo : Option RepoMetadata) (prev : PreviousDalecSpec)
    (Args Labels : List (String × String)) (spec : DalecSpec)
    (hrun : TransformToDalec repoInfo prev (some ⟨[], Args, Labels⟩) = some spec) :
    List.lookup "dependencies" spec = some (JVal.obj []) ∧
    List.lookup "targets" spec = some (JVal.obj []) ∧
    List.lookup "artifacts" spec = some (JVal.obj []) ∧
    List.lookup "image" spec = some (JVal.obj []) ∧
    (∃ nm url, List.lookup "sources" spec =
      some (JVal.obj [(nm,
        JVal.obj [("git", JVal.obj [("url", JVal.str url), ("commit", JVal.str "${COMMIT}")])])])) ∧
    List.lookup "build" spec =
      some (JVal.obj [("env", JVal.obj [("VERSION", JVal.str "${VERSION}")])]) ∧
    (∃ l, List.lookup "args" spec = some (JVal.obj l) ∧
      l.map Prod.fst = ["REVISION", "VERSION", "COMMIT", "TARGETARCH", "TARGETOS"]) ∧
    (∃ nm, List.lookup "name" spec = some (JVal.str nm)) ∧
    List.lookup "packager" spec = some (JVal.str "Azure Container Upstream") ∧
    List.lookup "vendor" spec = some (JVal.str "Microsoft Corporation") ∧
    (∃ s, List.lookup "license" spec = some (JVal.str s)) ∧
    (∃ s, List.lookup "website" spec = some (JVal.str s)) ∧
    (∃ s, List.lookup "description" spec = some (JVal.str s)) ∧
    List.lookup "version" spec = some (JVal.str "${VERSION}") ∧
    List.lookup "revision" spec = some (JVal.str "${REVISION}") := by
  unfold TransformToDalec at hrun
  cases hr : rebuild repoInfo prev with
  | none => rw [hr] at hrun; simp at hrun
  | some r =>
    rw [hr] at hrun
    simp only [Option.some.injEq] at hrun
    subst hrun
    refine ⟨?_, ?_, ?_, ?_, ?_, ?_, ?_, ?_, ?_, ?_, ?_, ?_, ?_, ?_, ?_⟩
    · simp [DalecMapping.lookup_alsert, DalecMapping.lookup_alsert_ne, extractDependencies]
    · simp [DalecMapping.lookup_alsert, DalecMapping.lookup_alsert_ne, extractTargets]
    · simp [DalecMapping.lookup_alsert, DalecMapping.lookup_alsert_ne, extractArtifacts,
        findBuilderStageName]
    · simp [DalecMapping.lookup_alsert, DalecMapping.lookup_alsert_ne, extractImageConfig]
    · simp [DalecMapping.lookup_alsert, DalecMapping.lookup_alsert_ne, extractSources,
        DalecMapping.alsert_nil, DalecMapping.alsert_cons_ne]
    · simp [DalecMapping.lookup_alsert, DalecMapping.lookup_alsert_ne, extractBuildSteps,
        extractBuildCommands, DalecMapping.alsert_nil, DalecMapping.alsert_cons_ne]
    · simp [DalecMapping.lookup_alsert, DalecMapping.lookup_alsert_ne, populateArgs,
        populateMetadata, DalecMapping.alsert_nil, DalecMapping.alsert_cons_ne, List.lookup]
    · simp [DalecMapping.lookup_alsert, DalecMapping.lookup_alsert_ne, populateMetadata]
    · simp [DalecMapping.lookup_alsert, DalecMapping.lookup_alsert_ne, populateMetadata]
    · simp [DalecMapping.lookup_alsert, DalecMapping.lookup_alsert_ne, populateMetadata]
    · simp [DalecMapping.lookup_alsert, DalecMapping.lookup_alsert_ne, populateMetadata]
    · simp [DalecMapping.lookup_alsert, DalecMapping.lookup_alsert_ne, populateMetadata]
    · simp [DalecMapping.lookup_alsert, DalecMapping.lookup_alsert_ne, populateMetadata]
    · simp [DalecMapping.lookup_alsert, DalecMapping.lookup_alsert_ne, populateMetadata]
    · simp [DalecMapping.lookup_alsert, DalecMapping.lookup_alsert_ne, populateMetadata]

theorem C1_zero_stage_sections_witness :
    List.lookup "dependencies" ((TransformToDalec none ⟨"", ""⟩ (some ⟨[], [], []⟩)).getD []) =
      some (JVal.obj []) := by
  have h := C1_zero_stage_sections none ⟨"", ""⟩ [] []
    ((TransformToDalec none ⟨"", ""⟩ (some ⟨[], [], []⟩)).getD []) rfl
  exact h.1

/-- C6: evaluating `createSymlinks` on the spec's own example
`COPY --from=builder /app/bin/app /usr/local/bin/app` (inside a final stage
that also yields the artifact keyed `/app/bin/app`): the symlink target the
code emits is `/usr/local/bin/app/app`, not the copy destination
`/usr/local/bin/app` — the `HasSuffix` guard around `filepath.Join` is
inverted, so the binary name is joined onto a destination that already ends
with it. -/
theorem C6_symlink_dest_evaluation :
    extractArtifacts ⟨[⟨"builder", "golang:1.21", "", [], [], "", [], [], [], [], []⟩,
        ⟨"final", "mcr", "", [], [], "", [],
          [⟨"COPY", "builder", ["/app/bin/app"], "/usr/local/bin/app"⟩], [], [], []⟩], [], []⟩ =
      [("binaries", JVal.obj [("/app/bin/app", JVal.obj [])])] ∧
    createSymlinks ⟨"final", "mcr", "", [], [], "", [],
        [⟨"COPY", "builder", ["/app/bin/app"], "/usr/local/bin/app"⟩], [], [], []⟩ =
      [("symlinks", JVal.obj [("/usr/bin/app",
        JVal.obj [("path", JVal.str "/usr/local/bin/app/app")])])] ∧
    ("/usr/local/bin/app/app" : String) ≠ "/usr/local/bin/app" := by
  exact ⟨rfl, rfl, by decide⟩

/-- C8 fails as stated: the unwrap guard is `len > 2 && first == "/bin/sh"`,
not "exactly three-element shell-wrapped form"; a four-element JSON-form
entrypoint starting with "/bin/sh" also has its third element extracted
instead of the first. -/
theorem C8_counterexample :
    List.lookup "entrypoint"
      (extractImageConfig ⟨[⟨"app", "scratch", "", [], [], "", [], [],
        ["/bin/sh", "a", "b", "c"], [], []⟩], [], []⟩) = some (JVal.str "b") ∧
    JVal.str "b" ≠ JVal.str "/bin/sh" := by
  refine ⟨rfl, by simp⟩

/-- C8 (amended): the image section is built from the last stage (in
declaration order) that is not named "windows"/"hpc" and has an entrypoint or
a copy instruction; it is empty when no stage qualifies; the image entrypoint
is the candidate entrypoint's third element whenever the entrypoint has more
than two elements and starts with "/bin/sh", and its first element
otherwise. -/
theorem C8_final_stage_and_entrypoint (info : DockerfileInfo) :
    (info.Stages.reverse.find? finalStagePred = none → extractImageConfig info = []) ∧
    (∀ st, info.Stages.reverse.find? finalStagePred = some st →
      (st.Entrypoint = [] → List.lookup "entrypoint" (extractImageConfig info) = none) ∧
      (∀ e0 rest, st.Entrypoint = e0 :: rest →
        List.lookup "entrypoint" (extractImageConfig info) =
          some (JVal.str
            (if 2 < rest.length + 1 ∧ e0 = "/bin/sh" then rest.getD 1 "" else e0)))) := by
  constructor
  · intro hfind
    by_cases hs : info.Stages = []
    · simp [extractImageConfig, hs]
    · simp [extractImageConfig, hs, hfind]
  · intro st hfind
    have hs : info.Stages ≠ [] := by
      intro h
      rw [h] at hfind
      simp at hfind
    constructor
    · intro hent
      cases hp : (createSymlinks st).isEmpty <;>
        simp [extractImageConfig, hs, hfind, hent, hp, alsert, List.lookup]
    · intro e0 rest hent
      cases hp : (createSymlinks st).isEmpty <;>
        simp [extractImageConfig, hs, hfind, hent, hp, alsert, List.lookup]

theorem C8_final_stage_and_entrypoint_witness :
    List.lookup "entrypoint"
      (extractImageConfig ⟨[⟨"app", "scratch", "", [], [], "", [], [],
        ["/bin/sh", "-c", "run"], [], []⟩], [], []⟩) = some (JVal.str "run") := by
  have h := (C8_final_stage_and_entrypoint ⟨[⟨"app", "scratch", "", [], [], "", [], [],
    ["/bin/sh", "-c", "run"], [], []⟩], [], []⟩).2
    ⟨"app", "scratch", "", [], [], "", [], [], ["/bin/sh", "-c", "run"], [], []⟩ rfl
  have h2 := h.2 "/bin/sh" ["-c", "run"] rfl
  simpa using h2

end transformer

end DalecMapping
